import Mathlib

/-!
A shallow embedding of the lilx XML-snippet parser (src/lilx.c, src/lilx.h,
src/stack.c, src/stack.h) and proofs about its behaviour.

Conventions of the embedding:
* C strings are `List Char` without the terminating NUL; the end of a list
  plays the role of the `'\0'` terminator (reading "`*p`" of an exhausted
  list yields `nul`).
* Machine integers are modelled as `Nat`/`Int`; where the C code's narrow
  width is observable (the `uint8_t offset` of `__lilx_compare`, the
  `uint8_t len` of `lilx_get_attribute_by_name`) the reduction modulo 256
  is written out explicitly.
* `malloc` is assumed to succeed; allocation-failure branches of the C code
  are not modelled.
* The processing stack of the driver is modelled at the value level of the
  stack ADT's documented LIFO contract (push/pop/peek on a bounded list,
  top at the head).  The pointer-level `stack.c` implementation is modelled
  separately (`CStack`) with explicit slot indices, since its slot
  arithmetic is itself under scrutiny.
-/

/-- The NUL character, standing for the C string terminator. -/
def nul : Char := Char.ofNat 0

/-- First byte of a C string, `'\0'` when the string is exhausted. -/
def chead : List Char → Char
  | [] => nul
  | c :: _ => c

/-- Model of the C pointer step: `ctail` moves past the first byte (no effect on an exhausted string). -/
def ctail : List Char → List Char
  | [] => []
  | _ :: cs => cs

/-- C `isspace` on the default locale restricted to single bytes:
space, `\t`, `\n`, `\v`, `\f`, `\r`. -/
def isspaceC (c : Char) : Bool :=
  c = ' ' || c = '\t' || c = '\n' || c = Char.ofNat 11 || c = Char.ofNat 12 || c = '\r'

/-- C `isalnum` on the default locale restricted to ASCII: `[a-zA-Z0-9]`. -/
def isalnumC (c : Char) : Bool :=
  ('a' ≤ c && c ≤ 'z') || ('A' ≤ c && c ≤ 'Z') || ('0' ≤ c && c ≤ '9')

/-- The macro `XML_BODY_CHARS` from src/lilx.c line 256: the punctuation bytes that
element bodies, attribute values and comment bodies may start with. -/
def xmlBodyChars : List Char := ("!@#$%^&*()-_=+[\x7b]\x7d\\/|;:,.?").toList

/-- The state numbers of the automaton (src/lilx.c lines 203-212). -/
def ELEM_NAME_START : Nat := 0
def ELEM_NAME_END : Nat := 1
def ATTR_NAME : Nat := 2
def ATTR_VAL : Nat := 3
def ELEM : Nat := 4
def COMMENT : Nat := 5
def END : Nat := 6

/-- The macro `LILX_MAX_TOKEN_LENGTH` (src/lilx.h line 15). -/
def LILX_MAX_TOKEN_LENGTH : Nat := 1000

/-- The macro `LILX_STACK_SIZE` (src/lilx.h line 22). -/
def LILX_STACK_SIZE : Nat := 100

/-- The `'s'` case of `__lilx_compare` (src/lilx.c lines 550-562): while the
input byte is whitespace the pattern cursor is held on the `'s'`
(`transition--` followed by the loop's `transition++`) and the input is
consumed with `(*offset)++`; the first non-whitespace byte leaves the input
in place and moves past the `'s'` with zero net count.  `wsRun xml` is the
length of that greedy whitespace run and the input remaining after it. -/
def wsRun : List Char → Nat × List Char
  | [] => (0, [])
  | c :: rest =>
    if isspaceC c then
      let p := wsRun rest
      (p.1 + 1, p.2)
    else (0, c :: rest)

/-- The body of the `while (*transition != '\0')` loop of `__lilx_compare`
(src/lilx.c lines 520-582), counting how many times `(*offset)++` takes
effect net of the `(*offset)--` corrections inside the `'s'` case.  Each
literal, `'a'`, `'A'`, `'S'` and `'0'` pattern position contributes 1,
and an `'s'` position contributes the length of the greedy whitespace run
(`wsRun`).  Returns `none` where the C function returns non-zero (no
match). -/
def cmpCount : List Char → List Char → Option Nat
  | _, [] => some 0
  | xml, t :: ts =>
    match t with
    | 'A' =>
      -- strchr(XML_BODY_CHARS, *xml) != NULL && *xml != '\0'  → accept;
      -- otherwise fall through to the 'a' (alphanumeric) test
      if xmlBodyChars.contains (chead xml) && !(xml.isEmpty) then
        (cmpCount (ctail xml) ts).map (· + 1)
      else if isalnumC (chead xml) then (cmpCount (ctail xml) ts).map (· + 1)
      else none
    | 'a' =>
      if isalnumC (chead xml) then (cmpCount (ctail xml) ts).map (· + 1) else none
    | 'S' =>
      if isspaceC (chead xml) then (cmpCount (ctail xml) ts).map (· + 1) else none
    | 's' =>
      (cmpCount (wsRun xml).2 ts).map (· + (wsRun xml).1)
    | '0' =>
      -- matches exactly the NUL terminator; the C code then still steps
      -- `xml++` past the terminator, counting 1.  Every table pattern ends
      -- at '0', so the continuation only ever sees the empty pattern.
      if xml.isEmpty then (cmpCount [] ts).map (· + 1) else none
    | lit =>
      if chead xml = lit then (cmpCount (ctail xml) ts).map (· + 1) else none

/-- Model of `__lilx_compare` (src/lilx.c lines 520-582): on a match the stored
`uint8_t` offset is the total count minus one, reduced modulo 256
(`(*offset)--` on line 580, on a `uint8_t`). -/
def lilxCompare (xml : List Char) (tran : List Char) : Option Nat :=
  (cmpCount xml tran).map (fun c => (c + 255) % 256)


/-- The state transition table `__lilx_transitions` (src/lilx.c lines
266-320), in the `XML_USE_SINGLE_QUOTES == 0` configuration (that macro is
undefined, so the preprocessor evaluates it as 0 and the double-quote
branch is compiled).  `lilxTransitions[state][target][choice]`. -/
def lilxTransitions : List (List (List (Option String))) :=
  [ /- ELEM_NAME_START -/
    [ [some ("s>s<a"), some ("s/>s<a")], [some ("s>s</a"), some ("s/>s</a")],
      [some ("Ssa"), none], [none, none], [some ("s>sA"), none],
      [some ("s>s<!--sA"), some ("s/>s<!--sA")], [some ("s/>s0"), none] ],
    /- ELEM_NAME_END -/
    [ [some ("s>s<a"), none], [some ("s>s</a"), none], [none, none], [none, none],
      [some ("s>sA"), none], [some ("s>s<!--"), none], [some ("s>s0"), none] ],
    /- ATTR_NAME -/
    [ [none, none], [none, none], [none, none], [some ("=\"sA"), none],
      [none, none], [none, none], [none, none] ],
    /- ATTR_VAL -/
    [ [some ("\"s>s<a"), some ("\"s/>s<a")], [some ("\"s>s</a"), some ("\"s/>s</a")],
      [some ("\"Ssa"), none], [none, none], [some ("\"s>A"), some ("\"s/>sA")],
      [some ("\"s>s<!--sA"), some ("\"s/>s<!--sA")], [some ("\"s/>s0"), none] ],
    /- ELEM -/
    [ [some ("s<a"), none], [some ("s</a"), none], [none, none], [none, none],
      [none, none], [some ("<!--sA"), none], [none, none] ],
    /- COMMENT -/
    [ [some ("-->s<a"), none], [some ("-->s</a"), none], [none, none], [none, none],
      [some ("-->sA"), none], [some ("-->s<!--sA"), none], [none, none] ],
    /- END -/
    [ [none, none], [none, none], [none, none], [none, none], [none, none],
      [none, none], [none, none] ] ]

/-- Lookup of `__lilx_transitions[state][i][j]`, as a `List Char` pattern. -/
def lilxTable (state i j : Nat) : Option (List Char) :=
  ((((lilxTransitions.getD state []).getD i []).getD j none)).map String.toList

/-- The candidate (target state, pattern) pairs inspected by the two nested
`for` loops of `__lilx_get_next_state` (src/lilx.c lines 594-595), in
evaluation order: target state `i` ascending, then alternative `j`
ascending, with `NULL` entries skipped (`continue`, line 598). -/
def candList (state : Nat) : List (Nat × List Char) :=
  (List.range 7).flatMap fun i =>
    (List.range 2).filterMap fun j => (lilxTable state i j).map fun p => (i, p)

/-- The accumulator loop of `__lilx_get_next_state` (src/lilx.c lines
594-621): `last` starts at -1 (an `int8_t`); a matching candidate replaces
the running best exactly when its raw pattern length (`strlen(tran)`) is
strictly greater than `last`.  The running best records the target state,
the stored offset, and the winning pattern text. -/
def gnsFold (xml : List Char) :
    List (Nat × List Char) → Int → Option (Nat × Nat × List Char) →
    Option (Nat × Nat × List Char)
  | [], _, best => best
  | (i, p) :: rest, last, best =>
    match lilxCompare xml p with
    | none => gnsFold xml rest last best
    | some off =>
      if (p.length : Int) > last then gnsFold xml rest (p.length : Int) (some (i, off, p))
      else gnsFold xml rest last best

/-- Model of `__lilx_get_next_state` (src/lilx.c lines 584-625): `none` models the
return value 1 (no state change); `some (i, off, tran)` models the return
value 0 with `*current_state = i`, `*offset = off`, `*transition = tran`. -/
def getNextState (state : Nat) (xml : List Char) : Option (Nat × Nat × List Char) :=
  gnsFold xml (candList state) (-1) none

/-- A frame of the processing stack.  The C code pushes untyped pointers;
both `element_t` and `attribute_t` begin with a `char *name`, and
`element_t.body` occupies the same slot as `attribute_t.value`, which is
why the embedding gives both frame kinds a name and an optional
value/body. -/
inductive Frame where
  | elem (name : List Char) (body : Option (List Char))
  | attr (name : List Char) (value : Option (List Char))
deriving DecidableEq, Repr

/-- The first field of either struct (`element->name` / `attr->name`). -/
def Frame.name : Frame → List Char
  | .elem n _ => n
  | .attr n _ => n

/-- The second field of either struct (`element->body` / `attr->value`). -/
def Frame.value : Frame → Option (List Char)
  | .elem _ b => b
  | .attr _ v => v

/-- Overwriting the second field of either struct. -/
def Frame.withValue : Frame → List Char → Frame
  | .elem n _, v => .elem n (some v)
  | .attr n _, v => .attr n (some v)

/-- Is the frame an element frame? -/
def Frame.isElem : Frame → Bool
  | .elem _ _ => true
  | .attr _ _ => false

/-- C `strncmp(a, b, n)`: bytewise comparison of at most `n` bytes,
stopping at a NUL in either operand; the sign of the result is the sign of
the first differing byte pair. -/
def strncmp : List Char → List Char → Nat → Int
  | _, _, 0 => 0
  | a, b, n + 1 =>
    if chead a ≠ chead b then (chead a).toNat - ((chead b).toNat : Int)
    else if chead a = nul then 0
    else strncmp (ctail a) (ctail b) n

/-- C `strstr(hay, needle) != NULL`: does `hay` contain `needle`? -/
def strstrHas (hay needle : List Char) : Bool :=
  hay.tails.any fun t => needle.isPrefixOf t

/-- Model of `__lilx_elem_name_start_action` (src/lilx.c lines 631-678): build an
element named by the token, attach it to the element on top of the stack
if any (peek; attachment does not change the stack), and push it unless
the winning transition contains the self-closing marker `"/>"`.  `none`
models the non-zero failure return (here: `stack_push` on a full stack;
`malloc` failure is not modelled). -/
def elemNameStartAction (stack : List Frame) (tkn : List Char) (tran : List Char) :
    Option (List Frame) :=
  if strstrHas tran (("/>").toList) then some stack
  else if LILX_STACK_SIZE ≤ stack.length then none
  else some (.elem tkn none :: stack)

/-- Model of `__lilx_elem_name_end_action` (src/lilx.c lines 680-702): fail if the
stack is empty (`stack_peek` NULL), fail if
`strncmp(element->name, tkn, strlen(tkn)) != 0`, else pop the top frame
(`stack_pop` returns the peeked frame in the LIFO model, so the
corruption guard on line 699 never fires). -/
def elemNameEndAction (stack : List Frame) (tkn : List Char) (_tran : List Char) :
    Option (List Frame) :=
  match stack with
  | [] => none
  | f :: rest => if strncmp f.name tkn tkn.length = 0 then some rest else none

/-- Model of `__lilx_attr_name_action` (src/lilx.c lines 704-746): build an
attribute named by the token with a NULL value, fail if the stack is empty
(`stack_peek` NULL, no owning element), else attach it to the top frame
(no stack change) and push it (failing if the stack is full). -/
def attrNameAction (stack : List Frame) (tkn : List Char) (_tran : List Char) :
    Option (List Frame) :=
  match stack with
  | [] => none
  | f :: rest =>
    if LILX_STACK_SIZE ≤ (f :: rest).length then none
    else some (.attr tkn none :: f :: rest)

/-- Model of `__lilx_attr_val_action` (src/lilx.c lines 748-786): fail if the stack
is empty; fail if the top frame's value slot is already set (`attr->value
!= NULL`); else store the token as its value, pop it, and when the winning
transition contains `"/>"` additionally pop the owning element (failing if
that pop finds an empty stack). -/
def attrValAction (stack : List Frame) (_tkn : List Char) (tran : List Char) :
    Option (List Frame) :=
  match stack with
  | [] => none
  | f :: rest =>
    if (f.value).isSome then none
    else
      -- the frame `f.withValue _tkn` is popped immediately, so only the
      -- remainder of the stack survives in the frame model
      if strstrHas tran (("/>").toList) then
        match rest with
        | [] => none
        | _ :: rest' => some rest'
      else some rest

/-- Model of `__lilx_elem_action` (src/lilx.c lines 788-808): fail if the stack is
empty, else replace the body of the top frame with the token. -/
def elemAction (stack : List Frame) (tkn : List Char) (_tran : List Char) :
    Option (List Frame) :=
  match stack with
  | [] => none
  | f :: rest => some (f.withValue tkn :: rest)

/-- Model of `__lilx_comment_action` (src/lilx.c lines 810-818): no-op. -/
def commentAction (stack : List Frame) (_tkn : List Char) (_tran : List Char) :
    Option (List Frame) :=
  some stack

/-- Model of `__lilx_end_action` (src/lilx.c lines 820-828): no-op. -/
def endAction (stack : List Frame) (_tkn : List Char) (_tran : List Char) :
    Option (List Frame) :=
  some stack

/-- The `__lilx_actions` dispatch table (src/lilx.c lines 219-229). -/
def lilxActions (state : Nat) :
    List Frame → List Char → List Char → Option (List Frame) :=
  match state with
  | 0 => elemNameStartAction
  | 1 => elemNameEndAction
  | 2 => attrNameAction
  | 3 => attrValAction
  | 4 => elemAction
  | 5 => commentAction
  | 6 => endAction
  | _ => fun _ _ _ => none  -- out of range, unreachable

/-- A configuration of the driver loop of `lilx_create_tree` (src/lilx.c
lines 374-422) at the loop head: the current state, the remaining input
(the cursor), the pending token buffer contents `token[0..tknidx)`, and
the processing stack (top at the head).  `oob` is a ghost observer: it
becomes true as soon as a store into the token buffer happens at an index
`≥ LILX_MAX_TOKEN_LENGTH`, i.e. past the end of the
`malloc(LILX_MAX_TOKEN_LENGTH)` allocation. -/
structure Config where
  state : Nat
  xml : List Char
  token : List Char
  stack : List Frame
  oob : Bool
deriving DecidableEq, Repr

/-- Result of one iteration of the driver loop: `next` continues with a new
configuration, `broke` leaves the loop through one of the two `break`
statements (token overflow on line 392, action failure on line 417). -/
inductive StepOut where
  | next (c : Config)
  | broke (c : Config)
deriving DecidableEq, Repr

/-- One iteration of the driver loop body (src/lilx.c lines 375-422).
No transition: if `tknidx == LILX_MAX_TOKEN_LENGTH` break, else store the
current byte at index `tknidx` (always < LILX_MAX_TOKEN_LENGTH) and
advance one byte.  Transition found: store the terminating NUL at index
`tknidx` (this is the store watched by `oob`), run the action handler of
the *current* state, break on its failure, else skip `offset` bytes and
adopt the target state.  On an abort the C stack may have been partially
mutated by the failing handler; the final result does not depend on it
(state ≠ END forces failure), and `broke` keeps the pre-action stack. -/
def lilxStep (c : Config) : StepOut :=
  match getNextState c.state c.xml with
  | none =>
    if c.token.length = LILX_MAX_TOKEN_LENGTH then .broke c
    else .next { c with token := c.token ++ [chead c.xml], xml := ctail c.xml }
  | some (i, off, tran) =>
    let oob' := c.oob || decide (LILX_MAX_TOKEN_LENGTH ≤ c.token.length)
    match lilxActions c.state c.stack c.token tran with
    | none => .broke { c with oob := oob' }
    | some stk' =>
      .next { state := i, xml := c.xml.drop off, token := [], stack := stk', oob := oob' }

/-- The driver loop `while (state != END && (*xml) != '\0')` (src/lilx.c
line 375), with explicit fuel; `none` means the fuel ran out before the
loop finished (used to witness non-termination). -/
def loopRun : Nat → Config → Option Config
  | 0, _ => none
  | fuel + 1, c =>
    if c.state = END ∨ c.xml = [] then some c
    else
      match lilxStep c with
      | .broke c' => some c'
      | .next c' => loopRun fuel c'

/-- The frame holding the caller's root element, whose name is set to the
fixed string "root" (src/lilx.c lines 355-363). -/
def rootFrame : Frame := .elem (("root").toList) none

/-- The set-up phase of `lilx_create_tree` (src/lilx.c lines 338-374):
reject input not starting with `'<'`, consume that byte, push the root
frame, and start in state ELEM_NAME_START with an empty pending token.
`none` models the early `return 1`. -/
def lilxInit (input : List Char) : Option Config :=
  match input with
  | '<' :: rest => some { state := ELEM_NAME_START, xml := rest, token := [], stack := [rootFrame], oob := false }
  | _ => none

/-- The post-loop success test of `lilx_create_tree` (src/lilx.c lines
427-435): `state != END || stack.size != 1` is failure. -/
def lilxResult (c : Config) : Bool :=
  c.state == END && c.stack.length == 1

/-- Model of `lilx_create_tree` (src/lilx.c lines 326-436) on a given input, with
fuel for the driver loop: `some true` is the success return 0, `some
false` the failure return 1, `none` fuel exhaustion. -/
def createTree (fuel : Nat) (input : List Char) : Option Bool :=
  match lilxInit input with
  | none => some false
  | some c => (loopRun fuel c).map lilxResult


/-- Following the words of the spec (§4.1, claim C3): "the total number of
input bytes consumed by the whole pattern, where each literal and each
'a', 'A', 'S' position consumes exactly 1 byte, each 's' position consumes
the length (possibly zero) of the greedy whitespace run at that point, and
'0' consumes 0 bytes".  To be compared with the offset actually stored by
`__lilx_compare` (`lilxCompare`). -/
def specConsumed : List Char → List Char → Option Nat
  | _, [] => some 0
  | xml, t :: ts =>
    match t with
    | 'A' =>
      if xmlBodyChars.contains (chead xml) && !(xml.isEmpty) then
        (specConsumed (ctail xml) ts).map (· + 1)
      else if isalnumC (chead xml) then (specConsumed (ctail xml) ts).map (· + 1)
      else none
    | 'a' =>
      if isalnumC (chead xml) then (specConsumed (ctail xml) ts).map (· + 1) else none
    | 'S' =>
      if isspaceC (chead xml) then (specConsumed (ctail xml) ts).map (· + 1) else none
    | 's' =>
      (specConsumed (wsRun xml).2 ts).map (· + (wsRun xml).1)
    | '0' =>
      if xml.isEmpty then specConsumed [] ts else none
    | lit =>
      if chead xml = lit then (specConsumed (ctail xml) ts).map (· + 1) else none

/-- The candidates of `candList` that match the input, each with the offset
the matcher stores for it, in evaluation order. -/
def matchList (state : Nat) (xml : List Char) : List (Nat × Nat × List Char) :=
  (candList state).filterMap fun ip => (lilxCompare xml ip.2).map fun off => (ip.1, off, ip.2)

/-- The accumulator of `__lilx_get_next_state` restricted to the matching
candidates: `gnsFold` specialises to this fold over `matchList`. -/
def chooseBest : List (Nat × Nat × List Char) → Int → Option (Nat × Nat × List Char) →
    Option (Nat × Nat × List Char)
  | [], _, best => best
  | m :: rest, last, best =>
    if (m.2.2.length : Int) > last then chooseBest rest (m.2.2.length : Int) (some m)
    else chooseBest rest last best

/-- The stack of src/stack.c at the pointer level.  `top` is the offset of
the `top` pointer from the `malloc`ed array base (slot index, possibly
negative), `mem` records the content of each slot that has been written.
Elements are `Nat` handles with `0` playing the role of the NULL pointer.
`size` and `capacity` are `uint8_t` in C; the guards in push/pop keep
`size ≤ capacity ≤ 255`, so plain `Nat` is faithful. -/
structure CStack where
  capacity : Nat
  size : Nat
  top : Int
  mem : Int → Option Nat

/-- Model of `stack_create` (src/stack.c lines 11-20): `top` starts at the array
base (slot 0), size 0 (`malloc` assumed to succeed). -/
def stack_create (cap : Nat) : CStack :=
  { capacity := cap, size := 0, top := 0, mem := fun _ => none }

/-- Model of `stack_push` (src/stack.c lines 30-41): fail on a NULL element or a
full stack, else advance `top` by one slot unless the stack is empty, and
store the element at the slot `top` then points to.  The returned `Int` is
the index of the slot written (relative to the array base). -/
def stack_push (s : CStack) (e : Nat) : Option (CStack × Int) :=
  if e = 0 then none
  else if s.capacity ≤ s.size then none
  else
    let t := if 0 < s.size then s.top + 1 else s.top
    let m : Int → Option Nat := fun i => if i = t then some e else s.mem i
    some ({ s with top := t, size := s.size + 1, mem := m }, t)

/-- Model of `stack_pop` (src/stack.c lines 43-53): fail (return NULL) on an empty
or corrupt stack, else read the slot `top` points to, move `top` down one
slot and decrement the size.  Returns the value read (`none` if that slot
was never written — reading uninitialised memory), the new stack, and the
index of the slot read. -/
def stack_pop (s : CStack) : Option (Option Nat × CStack × Int) :=
  if s.size = 0 ∨ s.capacity < s.size then none
  else some (s.mem s.top, { s with top := s.top - 1, size := s.size - 1 }, s.top)

/-- Model of `stack_peek` (src/stack.c lines 55-60): fail on an empty or corrupt
stack, else read the slot `top` points to without moving it. -/
def stack_peek (s : CStack) : Option (Option Nat × Int) :=
  if s.size = 0 ∨ s.capacity < s.size then none
  else some (s.mem s.top, s.top)

/-- Model of `attribute_t` (src/lilx.h lines 43-47). -/
structure LAttribute where
  name : List Char
  value : List Char
deriving DecidableEq, Repr

/-- Model of `element_t` (src/lilx.h lines 52-60). -/
inductive LElement where
  | mk (name : List Char) (body : Option (List Char))
       (attributes : List LAttribute) (children : List LElement)
deriving Repr

/-- The attribute sequence of an element. -/
def LElement.attributes : LElement → List LAttribute
  | .mk _ _ attrs _ => attrs

/-- Model of `lilx_get_attribute_by_name` (src/lilx.c lines 490-501): `len` is a
`uint8_t`, so `strlen(name)` is truncated modulo 256; the loop returns the
first attribute with `strncmp(attr->name, name, len) == 0`. -/
def lilx_get_attribute_by_name (e : LElement) (name : List Char) : Option LAttribute :=
  e.attributes.find? fun a => strncmp a.name name (name.length % 256) == 0

/-- Following the words of the spec (§6, claim C9): "the first attribute in
the element's attribute sequence whose name is the given name", `none`
when no attribute of the element has that name.  To be compared with
`lilx_get_attribute_by_name`. -/
def specGetAttributeByName (e : LElement) (name : List Char) : Option LAttribute :=
  e.attributes.find? fun a => a.name == name

/-- Predicate `st.all Frame.isElem`: every frame on the stack is an element frame. -/
def allElemFrames (st : List Frame) : Bool := st.all Frame.isElem

/-- The stack shape required in state ATTR_VAL: an attribute frame with an
unset value on top, element frames below. -/
def attrTopInv : List Frame → Bool
  | .attr _ none :: rest => allElemFrames rest
  | _ => false

/-- The frame-kind invariant of the driver loop: the automaton state is in
range, in state ATTR_VAL the top of the stack is an attribute whose value
is not yet set with only element frames below it, and in every other state
the stack holds only element frames. -/
def lilxInv (c : Config) : Prop :=
  c.state < 7 ∧
  (c.state = ATTR_VAL → attrTopInv c.stack = true) ∧
  (c.state ≠ ATTR_VAL → allElemFrames c.stack = true)

/-- The loop-head configurations reachable from `c₀` by iterations of the
driver loop body: `step` may fire only under the loop guard
`state != END && *xml != '\0'` and when the body does not `break`. -/
inductive LilxReach (c₀ : Config) : Config → Prop where
  | refl : LilxReach c₀ c₀
  | step {c c' : Config} : LilxReach c₀ c → c.state ≠ END → c.xml ≠ [] →
      lilxStep c = .next c' → LilxReach c₀ c'

/-- Input of the C1 counterexample. -/
def c1input : List Char := ("<a></a></root>").toList

/-- Input of the C2 counterexample. -/
def c2input : List Char := ("<a></a></r><b><c/>").toList

/-- Input of the C4 failing run: 1000 alphanumeric bytes accumulate into
the pending token, then a transition fires. -/
def c4input : List Char := '<' :: (List.replicate 1000 'a' ++ ("/>").toList)

/-- Input of the C5 failing run: a comment-to-comment transition whose
total consumed length is 257 bytes, which the `uint8_t` offset stores as
0. -/
def c5input : List Char :=
  ("<a><!--y-->").toList ++ List.replicate 249 ' ' ++ ("<!--x").toList

/-- The loop-head configuration the C5 run settles in: the matched
transition advances the cursor by 0 bytes, keeps state COMMENT and runs
the no-op comment action, so the driver loop repeats it forever. -/
def c5fix : Config :=
  { state := COMMENT,
    xml := ("-->").toList ++ List.replicate 249 ' ' ++ ("<!--x").toList,
    token := [], stack := [.elem (("a").toList) none, rootFrame], oob := false }

/-- Intermediate configurations of the C5 run, from the initial
configuration to the fixed point. -/
def c5c0 : Config :=
  { state := ELEM_NAME_START,
    xml := ("a><!--y-->").toList ++ List.replicate 249 ' ' ++ ("<!--x").toList,
    token := [], stack := [rootFrame], oob := false }

def c5c1 : Config :=
  { state := ELEM_NAME_START,
    xml := ("><!--y-->").toList ++ List.replicate 249 ' ' ++ ("<!--x").toList,
    token := [('a')], stack := [rootFrame], oob := false }

def c5c2 : Config :=
  { state := COMMENT,
    xml := ("y-->").toList ++ List.replicate 249 ' ' ++ ("<!--x").toList,
    token := [], stack := [.elem (("a").toList) none, rootFrame], oob := false }

def c5c3 : Config :=
  { state := COMMENT,
    xml := ("-->").toList ++ List.replicate 249 ' ' ++ ("<!--x").toList,
    token := [('y')], stack := [.elem (("a").toList) none, rootFrame], oob := false }

/-- The element of the C9 counterexample: one attribute named "keyboard". -/
def c9elem : LElement :=
  .mk (("e").toList) none [⟨("keyboard").toList, ("v").toList⟩] []

/-! ## Helper lemmas -/

theorem char_eq_of_toNat_eq {a b : Char} (h : a.toNat = b.toNat) : a = b := by
  rw [← Char.ofNat_toNat a, h, Char.ofNat_toNat]

/-- The test `strncmp(a, b, n) == 0` is a prefix test: for NUL-free operands and
`n ≤ strlen(b)`, it holds exactly when the first `n` bytes of `b` are a
prefix of `a`. -/
theorem strncmp_eq_zero_iff_prefix :
    ∀ (n : Nat) (a b : List Char), nul ∉ a → nul ∉ b → n ≤ b.length →
      (strncmp a b n = 0 ↔ b.take n <+: a) := by
  intro n
  induction n with
  | zero => intro a b _ _ _; simp [strncmp]
  | succ n ih =>
    intro a b ha hb hn
    match b with
    | [] => simp at hn
    | c :: bs =>
      have hc : c ≠ nul := fun h => hb (h ▸ List.mem_cons_self c bs)
      rw [List.take_succ_cons]
      match a with
      | [] =>
        have hne : chead [] ≠ chead (c :: bs) := by
          simp only [chead]
          intro h
          exact hc h.symm
        rw [strncmp, if_pos hne]
        constructor
        · intro h
          exfalso
          have h2 : (nul.toNat : Int) = c.toNat := by
            simpa [chead, sub_eq_zero] using h
          exact hc (char_eq_of_toNat_eq (by exact_mod_cast h2)).symm
        · intro h
          exact absurd h (by simp)
      | x :: as =>
        by_cases hx : x = c
        · subst hx
          have h1 : ¬ (chead (x :: as) ≠ chead (x :: bs)) := by simp [chead]
          have h2 : chead (x :: as) ≠ nul := fun h => ha (by simp [chead] at h; simp [h])
          rw [strncmp, if_neg h1, if_neg h2]
          have ih' := ih as bs (fun h => ha (List.mem_cons_of_mem _ h))
            (fun h => hb (List.mem_cons_of_mem _ h)) (by simpa using hn)
          simpa [ctail, List.cons_prefix_cons] using ih'
        · have h1 : chead (x :: as) ≠ chead (c :: bs) := by simpa [chead] using hx
          rw [strncmp, if_pos h1]
          simp only [chead, List.cons_prefix_cons]
          constructor
          · intro h
            have h2 : (x.toNat : Int) = c.toNat := by
              simpa [sub_eq_zero] using h
            exact absurd (char_eq_of_toNat_eq (by exact_mod_cast h2)) hx
          · rintro ⟨h, -⟩; exact absurd h.symm hx

/-- The scan `List.find?` only depends on the values of the predicate on the list. -/
theorem find?_congr_pred {α : Type} (p q : α → Bool) :
    ∀ l : List α, (∀ a ∈ l, p a = q a) → l.find? p = l.find? q := by
  intro l
  induction l with
  | nil => intro _; rfl
  | cons x xs ih =>
    intro h
    rw [List.find?_cons, List.find?_cons, h x (List.mem_cons_self x xs)]
    cases q x
    · exact ih fun a ha => h a (List.mem_cons_of_mem _ ha)
    · rfl

/-- The close-tag action in terms of the prefix relation: for NUL-free
token and frame names, `__lilx_elem_name_end_action` fails on an empty
stack and otherwise pops the top frame exactly when the token is a prefix
of its name. -/
theorem elemNameEndAction_eq_prefixCheck (stack : List Frame) (tkn tran : List Char)
    (h1 : nul ∉ tkn) (h2 : ∀ f ∈ stack, nul ∉ f.name) :
    elemNameEndAction stack tkn tran =
      match stack with
      | [] => none
      | f :: rest => if tkn <+: f.name then some rest else none := by
  match stack with
  | [] => rfl
  | f :: rest =>
    have hf : nul ∉ f.name := h2 f (List.mem_cons_self f rest)
    have := strncmp_eq_zero_iff_prefix tkn.length f.name tkn hf h1 (le_refl _)
    rw [List.take_length] at this
    simp only [elemNameEndAction]
    by_cases h : tkn <+: f.name
    · rw [if_pos (this.mpr h), if_pos h]
    · rw [if_neg (fun hh => h (this.mp hh)), if_neg h]

/-- The matcher's count agrees with the spec-side byte accounting
(`specConsumed`) except that every `'0'` position is counted once. -/
theorem cmpCount_eq_specConsumed (xml pat : List Char) :
    cmpCount xml pat = (specConsumed xml pat).map (· + pat.count ('0')) := by
  induction xml, pat using cmpCount.induct with
  | case1 xml => simp [cmpCount, specConsumed]
  | case9 xml ts ih =>
    rw [show cmpCount xml ('s' :: ts) = (cmpCount (wsRun xml).2 ts).map (· + (wsRun xml).1) from rfl]
    rw [show specConsumed xml ('s' :: ts) =
        (specConsumed (wsRun xml).2 ts).map (· + (wsRun xml).1) from rfl]
    rw [ih]
    cases specConsumed (wsRun xml).2 ts
    · simp
    · simp [List.count_cons]; omega
  | case4 xml ts h1 h2 =>
    simp at h1 h2
    have hcond : ¬(chead xml ∈ xmlBodyChars ∧ ¬xml = []) := by tauto
    simp [cmpCount, specConsumed, hcond, h2]
  | _ =>
    simp_all [cmpCount, specConsumed, List.count_cons]
    <;> cases specConsumed (ctail _) _ <;> simp_all <;> omega

/-! ## C3: the offset stored by the pattern matcher -/

/-- C3, counterexample: on input `"><a"` the table pattern `"s>s<a"`
matches; the spec-side accounting of claim C3 (1 byte per literal and per
`'a'`/`'A'`/`'S'`, the whitespace-run length per `'s'`, 0 per `'0'`)
gives 3 consumed bytes, but the matcher stores offset 2. -/
theorem C3_counterexample :
    specConsumed (("><a").toList) (("s>s<a").toList) = some 3 ∧
    lilxCompare (("><a").toList) (("s>s<a").toList) = some 2 := by
  constructor
  · decide
  · decide

/-- C3, amended: when the matcher succeeds it stores `T - 1` reduced
modulo 256 (the offset is a `uint8_t`), where `T` counts 1 byte per
literal and per `'a'`/`'A'`/`'S'` position, the greedy whitespace-run
length per `'s'`, and 1 (the NUL terminator) per `'0'` position — i.e.
the claim's total plus the number of `'0'` positions, minus one. -/
theorem C3_offset_amended (xml pat : List Char) (n : Nat)
    (h : specConsumed xml pat = some n) :
    lilxCompare xml pat = some ((n + pat.count ('0') + 255) % 256) := by
  unfold lilxCompare
  rw [cmpCount_eq_specConsumed, h]
  simp [Nat.add_right_comm]

/-- Witness for C3_offset_amended at the concrete input of the
counterexample. -/
theorem C3_witness :
    lilxCompare (("><a").toList) (("s>s<a").toList) = some 2 := by
  have h := C3_offset_amended (("><a").toList) (("s>s<a").toList) 3 (by decide)
  rw [h]
  decide

/-! ## C8: the close-tag action -/

/-- C8: for NUL-free token and frame names, the closing-tag action
succeeds exactly when the stack is non-empty and the closing token is a
prefix of the top frame's name (strncmp over the token's length), in which
case that frame is popped; on an empty stack or a failed comparison it
fails and the stack is unchanged (the model returns `none` and the driver
keeps the old stack). -/
theorem C8_close_action (stack : List Frame) (tkn tran : List Char)
    (h1 : nul ∉ tkn) (h2 : ∀ f ∈ stack, nul ∉ f.name) :
    (stack = [] → elemNameEndAction stack tkn tran = none) ∧
    (∀ f rest, stack = f :: rest →
      (tkn <+: f.name → elemNameEndAction stack tkn tran = some rest) ∧
      (¬ tkn <+: f.name → elemNameEndAction stack tkn tran = none)) := by
  rw [elemNameEndAction_eq_prefixCheck stack tkn tran h1 h2]
  constructor
  · intro h; subst h; rfl
  · intro f rest h; subst h
    constructor
    · intro hp; simp [hp]
    · intro hp; simp [hp]

/-- Witness for C8_close_action: the token "ro" pops the frame named
"root", and the token "x" does not. -/
theorem C8_witness :
    elemNameEndAction [Frame.elem (("root").toList) none] (("ro").toList) [] =
      some [] ∧
    elemNameEndAction [Frame.elem (("root").toList) none] (("x").toList) [] =
      none := by
  constructor
  · exact ((C8_close_action [Frame.elem (("root").toList) none] (("ro").toList) []
      (by decide) (by decide)).2 _ [] rfl).1 (by decide)
  · exact ((C8_close_action [Frame.elem (("root").toList) none] (("x").toList) []
      (by decide) (by decide)).2 _ [] rfl).2 (by decide)

/-! ## C1: the root frame and close-tag matching -/

/-- C1, counterexample: parsing `"<a></a></root>"` runs the close-tag
action on the token "root" with only the root frame on the stack; the
action matches ("root" is a prefix of the root's name) and pops the root,
so the driver loop ends in state END with an *empty* stack — the root does
not remain on the stack throughout the attempt. -/
theorem C1_counterexample :
    (lilxInit c1input).bind (loopRun 100) =
      some { state := END, xml := [], token := [], stack := [], oob := false } := by
  decide

/-- C1, amended: the root frame (named "root") participates in close-tag
matching like any other frame: when it is the frame on top of the stack,
a closing-tag token pops it exactly when the token is a prefix of
"root". -/
theorem C1_root_close_amended (tkn tran : List Char) (h : nul ∉ tkn) :
    elemNameEndAction [rootFrame] tkn tran = some [] ↔ tkn <+: ("root").toList := by
  rw [elemNameEndAction_eq_prefixCheck [rootFrame] tkn tran h (by decide)]
  by_cases hp : tkn <+: ("root").toList
  · simp [rootFrame, Frame.name, hp]
  · simp [rootFrame, Frame.name, hp]

/-- Witness for C1_root_close_amended: the closing token "root" pops the
root frame. -/
theorem C1_witness :
    elemNameEndAction [rootFrame] (("root").toList) [] = some [] :=
  (C1_root_close_amended (("root").toList) [] (by decide)).mpr (by decide)

/-! ## C9: attribute lookup by name -/

/-- C9, counterexample: an element whose only attribute is named
"keyboard", queried for "key": the code returns the "keyboard" attribute
(prefix strncmp), while the claim ("whose name is the given name") says
`none`. -/
theorem C9_counterexample :
    lilx_get_attribute_by_name c9elem (("key").toList) =
      some ⟨("keyboard").toList, ("v").toList⟩ ∧
    specGetAttributeByName c9elem (("key").toList) = none := by
  constructor
  · decide
  · decide

/-- C9, amended: for NUL-free names, `lilx_get_attribute_by_name` returns
the first attribute whose name has the first `strlen(name) mod 256` bytes
of the query as a prefix (the length is a `uint8_t`), and `none` when no
attribute matches that prefix test; exact name equality is not required. -/
theorem C9_prefix_lookup_amended (e : LElement) (name : List Char)
    (h1 : nul ∉ name) (h2 : ∀ a ∈ e.attributes, nul ∉ a.name) :
    lilx_get_attribute_by_name e name =
      e.attributes.find? fun a => (name.take (name.length % 256)).isPrefixOf a.name := by
  unfold lilx_get_attribute_by_name
  apply find?_congr_pred
  intro a ha
  have hn : name.length % 256 ≤ name.length := Nat.mod_le _ _
  have hiff := strncmp_eq_zero_iff_prefix (name.length % 256) a.name name (h2 a ha) h1 hn
  rw [Bool.eq_iff_iff, beq_iff_eq, List.isPrefixOf_iff_prefix]
  exact hiff

/-- Witness for C9_prefix_lookup_amended at the counterexample element. -/
theorem C9_witness :
    lilx_get_attribute_by_name c9elem (("key").toList) =
      c9elem.attributes.find?
        (fun a => ((("key").toList).take ((("key").toList).length % 256)).isPrefixOf a.name) :=
  C9_prefix_lookup_amended c9elem (("key").toList) (by decide) (by decide)

/-! ## C2: the success condition of lilx_create_tree -/

/-- C2, counterexample: on input `"<a></a></r><b><c/>"` the closing token
"r" pops the root frame (prefix match), a fresh element "b" is pushed on
the emptied stack, and the run ends in state END with exactly one frame —
the frame of "b", not the caller's root — yet `lilx_create_tree` reports
success, because its final test checks only `state == END && stack.size ==
1` and not which frame remains. -/
theorem C2_counterexample :
    createTree 100 c2input = some true ∧
    (lilxInit c2input).bind (loopRun 100) =
      some { state := END, xml := [], token := [],
             stack := [Frame.elem (("b").toList) none], oob := false } ∧
    Frame.elem (("b").toList) none ≠ rootFrame := by
  refine ⟨by decide, by decide, by decide⟩

/-- C2, amended: `lilx_create_tree` returns success if and only if, when
the driver loop ends, the automaton is in the terminal End state and the
stack contains exactly one frame — whichever frame that is; the identity
of the remaining frame is not checked. -/
theorem C2_success_iff_amended (fuel : Nat) (input : List Char) (c0 c : Config)
    (hinit : lilxInit input = some c0) (hrun : loopRun fuel c0 = some c) :
    createTree fuel input = some true ↔ (c.state = END ∧ c.stack.length = 1) := by
  unfold createTree
  rw [hinit]
  simp [hrun, lilxResult]

/-- Witness for C2_success_iff_amended at the well-formed input "<a/>". -/
theorem C2_witness : createTree 100 (("<a/>").toList) = some true := by
  have h := C2_success_iff_amended 100 (("<a/>").toList)
    { state := ELEM_NAME_START, xml := ("a/>").toList, token := [],
      stack := [rootFrame], oob := false }
    { state := END, xml := [], token := [], stack := [rootFrame], oob := false }
    (by decide) (by decide)
  exact h.mpr (by decide)

/-! ## C10: slot arithmetic of the stack implementation -/

/-- C10: after `stack_create(2)`, a push writes slot 0 and the pop that
empties the stack reads slot 0 but leaves `top` at slot -1; the next push
sees `size == 0`, does not move `top` back, and stores into slot -1 —
outside the allocated bounds 0..capacity-1 and not slot 0 as the claim
states — leaving `size = 1` with `top = -1` instead of `size - 1 = 0`. -/
theorem C10_push_after_empty_bug :
    ((stack_push (stack_create 2) 5).map Prod.snd = some 0) ∧
    (((stack_push (stack_create 2) 5).bind fun p => stack_pop p.1).map
        (fun q => (q.1, q.2.2)) = some (some 5, 0)) ∧
    ((((stack_push (stack_create 2) 5).bind fun p => stack_pop p.1).bind
        fun q => stack_push q.2.1 7).map
        (fun p => (p.2, p.1.size, p.1.top)) = some (-1, 1, -1)) := by
  refine ⟨by decide, by decide, by decide⟩

/-! ## C6: transition selection -/

/-- The fold `gnsFold` ignores non-matching candidates: it is the fold `chooseBest`
over the matching candidates with their offsets. -/
theorem gnsFold_eq_chooseBest (xml : List Char) :
    ∀ (cands : List (Nat × List Char)) (last : Int) (best : Option (Nat × Nat × List Char)),
      gnsFold xml cands last best =
        chooseBest (cands.filterMap fun ip =>
          (lilxCompare xml ip.2).map fun off => (ip.1, off, ip.2)) last best := by
  intro cands
  induction cands with
  | nil => intro last best; rfl
  | cons ip rest ih =>
    intro last best
    obtain ⟨i, p⟩ := ip
    rw [List.filterMap_cons]
    cases h : lilxCompare xml p with
    | none => simp only [gnsFold, h]; exact ih last best
    | some off =>
      simp only [gnsFold, h, Option.map_some]
      simp only [chooseBest]
      by_cases hgt : (p.length : Int) > last
      · rw [if_pos hgt, if_pos hgt, ih]
      · rw [if_neg hgt, if_neg hgt, ih]

/-- The selector `getNextState` is the `chooseBest` fold over the matching candidates. -/
theorem getNextState_eq_chooseBest (state : Nat) (xml : List Char) :
    getNextState state xml = chooseBest (matchList state xml) (-1) none := by
  unfold getNextState matchList
  exact gnsFold_eq_chooseBest xml (candList state) (-1) none

/-- With a candidate already adopted, `chooseBest` never returns `none`. -/
theorem chooseBest_some_isSome :
    ∀ (ms : List (Nat × Nat × List Char)) (last : Int) (b : Nat × Nat × List Char),
      (chooseBest ms last (some b)).isSome := by
  intro ms
  induction ms with
  | nil => intro last b; rfl
  | cons m rest ih =>
    intro last b
    rw [chooseBest]
    by_cases hgt : (m.2.2.length : Int) > last
    · rw [if_pos hgt]; exact ih _ _
    · rw [if_neg hgt]; exact ih _ _

/-- Invariant of the `chooseBest` fold once a best candidate `b` is
adopted and `last` equals its pattern length: the final winner is either
`b` itself with nothing remaining strictly longer, or a later candidate
that is strictly longer than `b`, strictly longer than everything before
it, and at least as long as everything after it. -/
theorem chooseBest_characterization :
    ∀ (ms : List (Nat × Nat × List Char)) (b w : Nat × Nat × List Char),
      chooseBest ms ((b.2.2.length : Int)) (some b) = some w →
      (w = b ∧ ∀ m ∈ ms, m.2.2.length ≤ b.2.2.length) ∨
      (∃ pre post, ms = pre ++ w :: post ∧ b.2.2.length < w.2.2.length ∧
        (∀ m ∈ pre, m.2.2.length < w.2.2.length) ∧
        (∀ m ∈ post, m.2.2.length ≤ w.2.2.length)) := by
  intro ms
  induction ms with
  | nil =>
    intro b w h
    rw [chooseBest] at h
    exact Or.inl ⟨(Option.some_inj.mp h).symm, by simp⟩
  | cons m rest ih =>
    intro b w h
    rw [chooseBest] at h
    by_cases hgt : (m.2.2.length : Int) > (b.2.2.length : Int)
    · rw [if_pos hgt] at h
      have hgt' : b.2.2.length < m.2.2.length := by exact_mod_cast hgt
      rcases ih m w h with ⟨hw, hall⟩ | ⟨pre, post, hsplit, hlt, hpre, hpost⟩
      · subst hw
        exact Or.inr ⟨[], rest, by simp, hgt', by simp, hall⟩
      · refine Or.inr ⟨m :: pre, post, by rw [hsplit]; rfl, lt_trans hgt' hlt, ?_, hpost⟩
        intro m' hm'
        rcases List.mem_cons.mp hm' with h' | h'
        · subst h'; exact hlt
        · exact hpre m' h'
    · rw [if_neg hgt] at h
      have hle : m.2.2.length ≤ b.2.2.length := by omega
      rcases ih b w h with ⟨hw, hall⟩ | ⟨pre, post, hsplit, hlt, hpre, hpost⟩
      · refine Or.inl ⟨hw, ?_⟩
        intro m' hm'
        rcases List.mem_cons.mp hm' with h' | h'
        · subst h'; exact hle
        · exact hall m' h'
      · refine Or.inr ⟨m :: pre, post, by rw [hsplit]; rfl, hlt, ?_, hpost⟩
        intro m' hm'
        rcases List.mem_cons.mp hm' with h' | h'
        · subst h'; exact lt_of_le_of_lt hle hlt
        · exact hpre m' h'

/-- Starting from `last = -1` and no adopted candidate, `chooseBest`
returns the first candidate of maximal pattern length. -/
theorem chooseBest_first_of_max :
    ∀ (ms : List (Nat × Nat × List Char)) (w : Nat × Nat × List Char),
      chooseBest ms (-1) none = some w →
      ∃ pre post, ms = pre ++ w :: post ∧
        (∀ m ∈ pre, m.2.2.length < w.2.2.length) ∧
        (∀ m ∈ post, m.2.2.length ≤ w.2.2.length) := by
  intro ms w h
  match ms with
  | [] => exact absurd h (by rw [chooseBest]; simp)
  | m :: rest =>
    rw [chooseBest, if_pos (by omega)] at h
    rcases chooseBest_characterization rest m w h with ⟨hw, hall⟩ |
      ⟨pre, post, hsplit, hlt2, hpre, hpost⟩
    · subst hw
      exact ⟨[], rest, by simp, by simp, hall⟩
    · refine ⟨m :: pre, post, by rw [hsplit]; rfl, ?_, hpost⟩
      intro m' hm'
      rcases List.mem_cons.mp hm' with h' | h'
      · subst h'; exact hlt2
      · exact hpre m' h'

/-- C6: `__lilx_get_next_state` evaluates every non-NULL (target state,
alternative) pattern in ascending order of target-state index then
alternative index (the order of `matchList`/`candList`); it reports "no
transition" exactly when no candidate matches, and otherwise the winner is
a matching candidate whose raw pattern is strictly longer than every
matching candidate evaluated before it and at least as long as every
matching candidate evaluated after it — the first-seen candidate of
maximal raw pattern length. -/
theorem C6_longest_match_wins (state : Nat) (xml : List Char) :
    (getNextState state xml = none ↔ matchList state xml = []) ∧
    (∀ i off p, getNextState state xml = some (i, off, p) →
      ∃ pre post, matchList state xml = pre ++ (i, off, p) :: post ∧
        (∀ m ∈ pre, m.2.2.length < p.length) ∧
        (∀ m ∈ post, m.2.2.length ≤ p.length)) := by
  rw [getNextState_eq_chooseBest]
  constructor
  · constructor
    · intro h
      match hm : matchList state xml with
      | [] => rfl
      | m :: rest =>
        rw [hm, chooseBest, if_pos (by omega)] at h
        have := chooseBest_some_isSome rest ((m.2.2.length : Int)) m
        rw [h] at this
        exact absurd this (by simp)
    · intro h; rw [h]; rfl
  · intro i off p h
    exact chooseBest_first_of_max (matchList state xml) (i, off, p) h

/-- If `__lilx_get_next_state` reports a transition, the winning pattern
sits in the transition table row of the current state at the reported
target state, and the matcher accepted it with the reported offset. -/
theorem getNextState_some_mem {state : Nat} {xml : List Char} {i off : Nat}
    {p : List Char} (h : getNextState state xml = some (i, off, p)) :
    (i, p) ∈ candList state ∧ lilxCompare xml p = some off := by
  rw [getNextState_eq_chooseBest] at h
  obtain ⟨pre, post, hsplit, -, -⟩ := chooseBest_first_of_max _ _ h
  have hmem : (i, off, p) ∈ matchList state xml := by
    rw [hsplit]
    exact List.mem_append_right _ (List.mem_cons_self _ _)
  obtain ⟨ip, hip, heq⟩ := List.mem_filterMap.mp hmem
  cases hcmp : lilxCompare xml ip.2 with
  | none => rw [hcmp] at heq; exact absurd heq (by simp)
  | some off' =>
    rw [hcmp] at heq
    have heq' : (ip.1, off', ip.2) = (i, off, p) := by simpa using heq
    rw [Prod.ext_iff, Prod.ext_iff] at heq'
    obtain ⟨h1, h2, h3⟩ := heq'
    simp only at h1 h2 h3
    constructor
    · have hip' : ip = (i, p) := by rw [Prod.ext_iff]; exact ⟨h1, h3⟩
      exact hip' ▸ hip
    · rw [← h3, ← h2]; exact hcmp

/-! ## C7: the frame-kind invariant -/

/-- The open-tag action leaves the stack unchanged (self-closing tag) or
pushes one element frame. -/
theorem elemNameStartAction_shape {st st' : List Frame} {tkn tran : List Char}
    (h : elemNameStartAction st tkn tran = some st') :
    st' = st ∨ st' = .elem tkn none :: st := by
  unfold elemNameStartAction at h
  split at h
  · exact Or.inl (Option.some_inj.mp h).symm
  · split at h
    · exact absurd h (by simp)
    · exact Or.inr (Option.some_inj.mp h).symm

/-- The close-tag action pops exactly the top frame when it succeeds. -/
theorem elemNameEndAction_shape {st st' : List Frame} {tkn tran : List Char}
    (h : elemNameEndAction st tkn tran = some st') :
    ∃ f, st = f :: st' := by
  match st with
  | [] => exact absurd h (by rw [elemNameEndAction]; simp)
  | f :: rest =>
    rw [elemNameEndAction] at h
    split at h
    · exact ⟨f, by rw [Option.some_inj.mp h]⟩
    · exact absurd h (by simp)

/-- The attribute-name action pushes one attribute frame with an unset
value onto a non-empty stack. -/
theorem attrNameAction_shape {st st' : List Frame} {tkn tran : List Char}
    (h : attrNameAction st tkn tran = some st') :
    st ≠ [] ∧ st' = .attr tkn none :: st := by
  match st with
  | [] => exact absurd h (by rw [attrNameAction]; simp)
  | f :: rest =>
    rw [attrNameAction] at h
    split at h
    · exact absurd h (by simp)
    · exact ⟨by simp, (Option.some_inj.mp h).symm⟩

/-- The attribute-value action pops the top frame, and the frame below it
as well when the transition carries the self-closing marker. -/
theorem attrValAction_shape {st st' : List Frame} {tkn tran : List Char}
    (h : attrValAction st tkn tran = some st') :
    (∃ f, st = f :: st') ∨ (∃ f g, st = f :: g :: st') := by
  match st with
  | [] => exact absurd h (by simp only [attrValAction]; simp)
  | f :: rest =>
    simp only [attrValAction] at h
    split at h
    · exact absurd h (by simp)
    · split at h
      · match rest, h with
        | g :: rest', h =>
          exact Or.inr ⟨f, g, by rw [Option.some_inj.mp h]⟩
      · exact Or.inl ⟨f, by rw [Option.some_inj.mp h]⟩

/-- The element-body action rewrites the body of the top frame in place. -/
theorem elemAction_shape {st st' : List Frame} {tkn tran : List Char}
    (h : elemAction st tkn tran = some st') :
    ∃ f rest, st = f :: rest ∧ st' = f.withValue tkn :: rest := by
  match st with
  | [] => exact absurd h (by rw [elemAction]; simp)
  | f :: rest =>
    rw [elemAction] at h
    exact ⟨f, rest, rfl, (Option.some_inj.mp h).symm⟩

/-- Setting the body/value slot does not change the kind of a frame. -/
theorem Frame.isElem_withValue (f : Frame) (v : List Char) :
    (f.withValue v).isElem = f.isElem := by
  cases f <;> rfl

/-- Unfolding `allElemFrames` on a cons. -/
theorem allElemFrames_cons {f : Frame} {st : List Frame} :
    allElemFrames (f :: st) = true ↔ (f.isElem = true ∧ allElemFrames st = true) := by
  simp [allElemFrames]

/-- Inversion of the ATTR_VAL stack-shape predicate. -/
theorem attrTopInv_inversion {st : List Frame} (h : attrTopInv st = true) :
    ∃ nm rest, st = .attr nm none :: rest ∧ allElemFrames rest = true := by
  match st, h with
  | .attr nm none :: rest, h => exact ⟨nm, rest, rfl, h⟩

/-- A state at index 7 or beyond has no transition table row. -/
theorem candList_of_ge7 {s : Nat} (h : 7 ≤ s) : candList s = [] := by
  have hlen : lilxTransitions.length ≤ s := by
    have h7 : lilxTransitions.length = 7 := by rfl
    omega
  have h7 : lilxTransitions.getD s [] = [] := List.getD_eq_default _ _ hlen
  have ht : ∀ i j, lilxTable s i j = none := by
    intro i j
    unfold lilxTable
    rw [h7]
    rfl
  simp [candList, ht]

/-- A state with an empty candidate list reports no transition. -/
theorem getNextState_of_candList_nil {s : Nat} {xml : List Char}
    (h : candList s = []) : getNextState s xml = none := by
  unfold getNextState
  rw [h]
  rfl

/-- One driver-loop iteration preserves the frame-kind invariant. -/
theorem lilxInv_step {c c' : Config} (hInv : lilxInv c) (hstep : lilxStep c = .next c') :
    lilxInv c' := by
  obtain ⟨s, xml, token, stack, oob⟩ := c
  obtain ⟨hs7, hAttr, hElse⟩ := hInv
  simp only at hs7 hAttr hElse
  cases hg : getNextState s xml with
  | none =>
    simp only [lilxStep, hg] at hstep
    split at hstep
    · exact StepOut.noConfusion hstep
    · injection hstep with h
      subst h
      exact ⟨hs7, hAttr, hElse⟩
  | some ioff =>
    obtain ⟨i, off, tran⟩ := ioff
    obtain ⟨hmem, -⟩ := getNextState_some_mem hg
    simp only [lilxStep, hg] at hstep
    cases hact : lilxActions s stack token tran with
    | none =>
      rw [hact] at hstep
      exact StepOut.noConfusion hstep
    | some stk' =>
      rw [hact] at hstep
      injection hstep with h
      subst h
      interval_cases s
      · -- ELEM_NAME_START
        have hi := (by decide : ∀ ip ∈ candList 0, ip.1 < 7 ∧ ip.1 ≠ 3) _ hmem
        rw [show lilxActions 0 = elemNameStartAction from rfl] at hact
        have hall := hElse (by decide)
        rcases elemNameStartAction_shape hact with rfl | rfl
        · exact ⟨hi.1, fun h3 => absurd h3 hi.2, fun _ => hall⟩
        · refine ⟨hi.1, fun h3 => absurd h3 hi.2, fun _ => ?_⟩
          exact allElemFrames_cons.mpr ⟨rfl, hall⟩
      · -- ELEM_NAME_END
        have hi := (by decide : ∀ ip ∈ candList 1, ip.1 < 7 ∧ ip.1 ≠ 3) _ hmem
        rw [show lilxActions 1 = elemNameEndAction from rfl] at hact
        have hall := hElse (by decide)
        obtain ⟨f, hf⟩ := elemNameEndAction_shape hact
        rw [hf] at hall
        exact ⟨hi.1, fun h3 => absurd h3 hi.2, fun _ => (allElemFrames_cons.mp hall).2⟩
      · -- ATTR_NAME
        have hi := (by decide : ∀ ip ∈ candList 2, ip.1 = 3) _ hmem
        rw [show lilxActions 2 = attrNameAction from rfl] at hact
        have hall := hElse (by decide)
        obtain ⟨-, rfl⟩ := attrNameAction_shape hact
        refine ⟨?_, fun _ => ?_, fun h3 => absurd hi h3⟩
        · show i < 7
          omega
        · exact hall
      · -- ATTR_VAL
        have hi := (by decide : ∀ ip ∈ candList 3, ip.1 < 7 ∧ ip.1 ≠ 3) _ hmem
        rw [show lilxActions 3 = attrValAction from rfl] at hact
        obtain ⟨nm, rest, hrest, hall⟩ := attrTopInv_inversion (hAttr rfl)
        refine ⟨hi.1, fun h3 => absurd h3 hi.2, fun _ => ?_⟩
        rcases attrValAction_shape hact with ⟨f, hf⟩ | ⟨f, g, hf⟩
        · rw [hrest] at hf
          injection hf with h1 h2
          rw [← h2]
          exact hall
        · rw [hrest] at hf
          injection hf with h1 h2
          rw [h2] at hall
          exact (allElemFrames_cons.mp hall).2
      · -- ELEM
        have hi := (by decide : ∀ ip ∈ candList 4, ip.1 < 7 ∧ ip.1 ≠ 3) _ hmem
        rw [show lilxActions 4 = elemAction from rfl] at hact
        have hall := hElse (by decide)
        obtain ⟨f, rest, hf, rfl⟩ := elemAction_shape hact
        rw [hf] at hall
        refine ⟨hi.1, fun h3 => absurd h3 hi.2, fun _ => ?_⟩
        refine allElemFrames_cons.mpr ⟨?_, (allElemFrames_cons.mp hall).2⟩
        rw [Frame.isElem_withValue]
        exact (allElemFrames_cons.mp hall).1
      · -- COMMENT
        have hi := (by decide : ∀ ip ∈ candList 5, ip.1 < 7 ∧ ip.1 ≠ 3) _ hmem
        rw [show lilxActions 5 = commentAction from rfl] at hact
        have hall := hElse (by decide)
        obtain rfl : stack = stk' := Option.some_inj.mp hact
        exact ⟨hi.1, fun h3 => absurd h3 hi.2, fun _ => hall⟩
      · -- END: no outgoing transitions
        rw [getNextState_of_candList_nil (by decide)] at hg
        exact Option.noConfusion hg

/-- C7: in every loop-head configuration the driver can reach, the kind of
the top stack frame is determined by the current state: in state ATTR_VAL
the top frame is an attribute whose value is not yet set and every frame
below it is an element frame; in every other state every frame on the
stack is an element frame (and the state index is in range). -/
theorem C7_frame_kind_invariant (input : List Char) (c0 c : Config)
    (hinit : lilxInit input = some c0) (hreach : LilxReach c0 c) :
    lilxInv c := by
  induction hreach with
  | refl =>
    rw [lilxInit.eq_def] at hinit
    split at hinit
    · rw [Option.some_inj] at hinit
      rw [← hinit]
      refine ⟨?_, ?_, ?_⟩
      · show ELEM_NAME_START < 7
        decide
      · intro h
        exact absurd (show ELEM_NAME_START = ATTR_VAL from h) (by decide)
      · intro _
        show allElemFrames [rootFrame] = true
        decide
    · exact Option.noConfusion hinit
  | step hr hend hxml hstep ih => exact lilxInv_step ih hstep

/-- Witness for C7_frame_kind_invariant: the initial configuration of the
parse of "<a/>" satisfies the invariant. -/
theorem C7_witness :
    lilxInv { state := ELEM_NAME_START, xml := ("a/>").toList, token := [],
              stack := [rootFrame], oob := false } :=
  C7_frame_kind_invariant (("<a/>").toList) _ _ rfl LilxReach.refl

/-! ## C4: the pending-token bound -/

theorem gns_ens_alnum (xs : List Char) : getNextState 0 ('a' :: xs) = none := by
  have h1 : cmpCount ('a' :: xs) ['s', '>', 's', '<', 'a'] = none := by
    simp [cmpCount, wsRun, isspaceC, chead]
  have h2 : cmpCount ('a' :: xs) ['s', '/', '>', 's', '<', 'a'] = none := by
    simp [cmpCount, wsRun, isspaceC, chead]
  have h3 : cmpCount ('a' :: xs) ['s', '>', 's', '<', '/', 'a'] = none := by
    simp [cmpCount, wsRun, isspaceC, chead]
  have h4 : cmpCount ('a' :: xs) ['s', '/', '>', 's', '<', '/', 'a'] = none := by
    simp [cmpCount, wsRun, isspaceC, chead]
  have h5 : cmpCount ('a' :: xs) ['S', 's', 'a'] = none := by
    simp [cmpCount, wsRun, isspaceC, chead]
  have h6 : cmpCount ('a' :: xs) ['s', '>', 's', 'A'] = none := by
    simp [cmpCount, wsRun, isspaceC, chead]
  have h7 : cmpCount ('a' :: xs) ['s', '>', 's', '<', '!', '-', '-', 's', 'A'] = none := by
    simp [cmpCount, wsRun, isspaceC, chead]
  have h8 : cmpCount ('a' :: xs) ['s', '/', '>', 's', '<', '!', '-', '-', 's', 'A'] = none := by
    simp [cmpCount, wsRun, isspaceC, chead]
  have h9 : cmpCount ('a' :: xs) ['s', '/', '>', 's', '0'] = none := by
    simp [cmpCount, wsRun, isspaceC, chead]
  unfold getNextState
  rw [show candList 0 =
    [(0, ['s', '>', 's', '<', 'a']), (0, ['s', '/', '>', 's', '<', 'a']),
     (1, ['s', '>', 's', '<', '/', 'a']), (1, ['s', '/', '>', 's', '<', '/', 'a']),
     (2, ['S', 's', 'a']), (4, ['s', '>', 's', 'A']),
     (5, ['s', '>', 's', '<', '!', '-', '-', 's', 'A']),
     (5, ['s', '/', '>', 's', '<', '!', '-', '-', 's', 'A']),
     (6, ['s', '/', '>', 's', '0'])] from rfl]
  simp [gnsFold, lilxCompare, h1, h2, h3, h4, h5, h6, h7, h8, h9]

/-- While no transition matches, the driver copies input bytes into the
pending token one per iteration: a run of `n` alphanumeric bytes in state
ELEM_NAME_START moves them from the input to the token, as long as the
token stays within `LILX_MAX_TOKEN_LENGTH`. -/
theorem loopRun_accum (n : Nat) :
    ∀ (xs tok : List Char) (st : List Frame) (ob : Bool) (fuel : Nat),
      tok.length + n ≤ LILX_MAX_TOKEN_LENGTH →
      loopRun (fuel + n)
        { state := 0, xml := List.replicate n 'a' ++ xs, token := tok, stack := st, oob := ob }
        = loopRun fuel
        { state := 0, xml := xs, token := tok ++ List.replicate n 'a', stack := st, oob := ob } := by
  induction n with
  | zero => intro xs tok st ob fuel _; simp
  | succ n ih =>
    intro xs tok st ob fuel h
    have hne : ¬ (tok.length = LILX_MAX_TOKEN_LENGTH) := by
      simp only [LILX_MAX_TOKEN_LENGTH] at h ⊢
      omega
    rw [show List.replicate (n + 1) 'a' ++ xs = 'a' :: (List.replicate n 'a' ++ xs) from by
      simp [List.replicate_succ]]
    rw [show fuel + (n + 1) = (fuel + n) + 1 from by omega]
    rw [loopRun]
    rw [if_neg (by simp [END])]
    have hstep : lilxStep
        { state := 0, xml := 'a' :: (List.replicate n 'a' ++ xs),
          token := tok, stack := st, oob := ob } =
      StepOut.next
        { state := 0, xml := List.replicate n 'a' ++ xs, token := tok ++ ['a'],
          stack := st, oob := ob } := by
      simp [lilxStep, gns_ens_alnum, hne, chead, ctail]
    rw [hstep]
    have hih := ih xs (tok ++ ['a']) st ob fuel (by simp; omega)
    have hl : tok ++ ['a'] ++ List.replicate n 'a' = tok ++ List.replicate (n + 1) 'a' := by
      rw [List.append_assoc]
      simp [List.replicate_succ]
    rw [hl] at hih
    exact hih

/-- C4: the input `"<" ++ "a"*1000 ++ "/>"` accumulates a 1000-byte
pending token (stores at indices 0..999) and then matches a transition;
the driver stores the terminating NUL at index `tknidx = 1000 =
LILX_MAX_TOKEN_LENGTH` — one byte past the `malloc(LILX_MAX_TOKEN_LENGTH)`
buffer (the `oob` observer fires) — and the parse then *succeeds* instead
of failing. -/
theorem C4_token_overflow_bug :
    loopRun 1003
      { state := 0, xml := List.replicate 1000 'a' ++ ("/>").toList,
        token := [], stack := [rootFrame], oob := false } =
      some { state := END, xml := [], token := [], stack := [rootFrame], oob := true } ∧
    createTree 1003 c4input = some true := by
  have hacc := loopRun_accum 1000 (("/>").toList) [] [rootFrame] false 3
    (by simp [LILX_MAX_TOKEN_LENGTH])
  have hstep : lilxStep
      { state := 0, xml := ("/>").toList,
        token := List.replicate 1000 'a', stack := [rootFrame], oob := false } =
    StepOut.next
      { state := END, xml := [], token := [], stack := [rootFrame], oob := true } := by
    rw [show (("/>").toList) = ['/', '>'] from rfl]
    simp only [lilxStep,
      show getNextState 0 ['/', '>'] = some (6, 2, ['s', '/', '>', 's', '0']) from by decide]
    rw [show lilxActions 0 = elemNameStartAction from rfl]
    rw [show elemNameStartAction [rootFrame] (List.replicate 1000 'a')
        ['s', '/', '>', 's', '0'] = some [rootFrame] from by
      unfold elemNameStartAction
      rw [if_pos (show strstrHas ['s', '/', '>', 's', '0'] (("/>").toList) = true from by decide)]]
    rw [show (List.replicate 1000 'a').length = 1000 from by rw [List.length_replicate]]
    decide
  have hrun : loopRun 1003
      { state := 0, xml := List.replicate 1000 'a' ++ ("/>").toList,
        token := [], stack := [rootFrame], oob := false } =
      some { state := END, xml := [], token := [], stack := [rootFrame], oob := true } := by
    rw [show (1003 : Nat) = 3 + 1000 from rfl]
    rw [hacc]
    rw [show ([] : List Char) ++ List.replicate 1000 'a' = List.replicate 1000 'a' from
      List.nil_append _]
    rw [loopRun]
    rw [if_neg (by simp [END])]
    rw [hstep]
    show loopRun 2 { state := END, xml := [], token := [], stack := [rootFrame], oob := true }
      = some { state := END, xml := [], token := [], stack := [rootFrame], oob := true }
    decide
  refine ⟨hrun, ?_⟩
  unfold createTree
  rw [show lilxInit c4input = some
      { state := 0, xml := List.replicate 1000 'a' ++ ("/>").toList,
        token := [], stack := [rootFrame], oob := false } from rfl]
  show (loopRun 1003
      { state := 0, xml := List.replicate 1000 'a' ++ ("/>").toList,
        token := [], stack := [rootFrame], oob := false }).map lilxResult = some true
  rw [hrun]
  rfl

/-! ## C5: termination of the driver loop -/

set_option maxRecDepth 4000 in
/-- The configuration `c5fix` is a fixed point of the driver loop body:
the matched transition `"-->s<!--sA"` consumes 257 bytes, the `uint8_t`
offset stores `257 - 1 = 256 ≡ 0 (mod 256)`, the comment action is a
no-op, and the target state is COMMENT again. -/
theorem c5fix_step : lilxStep c5fix = StepOut.next c5fix := by decide

/-- No amount of fuel finishes the loop from the fixed point. -/
theorem loopRun_c5fix (n : Nat) : loopRun n c5fix = none := by
  induction n with
  | zero => rfl
  | succ n ih =>
    rw [loopRun]
    rw [if_neg (by decide)]
    rw [c5fix_step]
    exact ih

set_option maxRecDepth 4000 in
theorem c5c3_step : lilxStep c5c3 = StepOut.next c5fix := by decide

set_option maxRecDepth 4000 in
theorem c5c2_step : lilxStep c5c2 = StepOut.next c5c3 := by decide

set_option maxRecDepth 4000 in
theorem c5c1_step : lilxStep c5c1 = StepOut.next c5c2 := by decide

set_option maxRecDepth 4000 in
theorem c5c0_step : lilxStep c5c0 = StepOut.next c5c1 := by decide

theorem loopRun_c5c3 (n : Nat) : loopRun n c5c3 = none := by
  cases n with
  | zero => rfl
  | succ n =>
    rw [loopRun, if_neg (by decide), c5c3_step]
    exact loopRun_c5fix n

theorem loopRun_c5c2 (n : Nat) : loopRun n c5c2 = none := by
  cases n with
  | zero => rfl
  | succ n =>
    rw [loopRun, if_neg (by decide), c5c2_step]
    exact loopRun_c5c3 n

theorem loopRun_c5c1 (n : Nat) : loopRun n c5c1 = none := by
  cases n with
  | zero => rfl
  | succ n =>
    rw [loopRun, if_neg (by decide), c5c1_step]
    exact loopRun_c5c2 n

theorem loopRun_c5c0 (n : Nat) : loopRun n c5c0 = none := by
  cases n with
  | zero => rfl
  | succ n =>
    rw [loopRun, if_neg (by decide), c5c0_step]
    exact loopRun_c5c1 n

/-- C5: `lilx_create_tree` does not terminate on the input
`"<a><!--y-->" ++ 249 spaces ++ "<!--x"`: whatever fuel the driver loop is
given runs out, because from `c5fix` on, every iteration matches a
transition whose stored `uint8_t` offset is 0, advances the cursor by 0
bytes, stays in state COMMENT and runs the no-op comment action. -/
theorem C5_nontermination_bug (fuel : Nat) : createTree fuel c5input = none := by
  unfold createTree
  rw [show lilxInit c5input = some c5c0 from rfl]
  show (loopRun fuel c5c0).map lilxResult = none
  rw [loopRun_c5c0 fuel]
  rfl
